import Mathlib

/-!
Verification of the local-workspace package resolution and project-scaffolding
engine in `tools/src/commands/CreateBareProject.ts`.

The embedding models POSIX paths as a flag for absoluteness plus a list of
segments, mirrors Node's `path.relative` / `path.isAbsolute`, and embeds the
functions `getChangedPackagesAsync`, `getExtraPackagesAsync`,
`getExpoTransitivePackages`, the manifest-rewriting tail of
`prebuildProjectAsync`, its pack/glob/prebuild/unlink archive phase, and the
top-level `action`.  External collaborators (the git query, the npm packer,
the expo CLI, the package catalog loader) are inputs: the catalog is a list of
package records, the changed files a list of paths, and each external process
an `Except`-valued outcome parameter.
-/

namespace CreateBareProject

/-- A POSIX path: whether it is absolute, and its slash-separated segments. -/
structure Path where
  isAbs : Bool
  segs : List String
deriving DecidableEq, Repr

/-- Normalization of an absolute segment list as done by Node's
`path.resolve`: empty and `.` segments are dropped, `..` pops the last kept
segment (and is dropped at the root). -/
def normAbsSegs (segs : List String) : List String :=
  segs.foldl
    (fun acc seg =>
      if seg = ("") ∨ seg = (".") then acc
      else if seg = ("..") then acc.dropLast
      else acc ++ [seg])
    []

/-- Node `path.resolve(p)` against a current working directory given as an
already-normalized absolute segment list. -/
def resolveSegs (cwd : List String) (p : Path) : List String :=
  normAbsSegs ((if p.isAbs then [] else cwd) ++ p.segs)

/-- Drop the longest shared leading run of two segment lists, returning the
two remainders. -/
def dropSharedLeading : List String → List String → List String × List String
  | a :: as, b :: bs => if a = b then dropSharedLeading as bs else (a :: as, b :: bs)
  | as, bs => (as, bs)

/-- Node `path.relative(fromP, toP)`: resolve both against the cwd, drop the
shared leading segments, then go up once per remaining from-segment and down
the remaining to-segments.  The result is always a relative path. -/
def path_relative (cwd : List String) (fromP toP : Path) : Path :=
  let f := resolveSegs cwd fromP
  let t := resolveSegs cwd toP
  let r := dropSharedLeading f t
  ⟨false, List.replicate r.1.length ("..") ++ r.2⟩

/-- JavaScript `s.startsWith(pre)`, computed structurally on the character
lists so that it evaluates by kernel reduction. -/
def strStartsWith (s pre : String) : Bool :=
  pre.data.isPrefixOf s.data

/-- JavaScript `s.endsWith(suf)`, computed structurally on the character
lists. -/
def strEndsWith (s suf : String) : Bool :=
  suf.data.reverse.isPrefixOf s.data.reverse

/-- JavaScript `s.trim()`: strip whitespace from both ends. -/
def jsTrim (s : String) : String :=
  String.mk ((s.data.dropWhile Char.isWhitespace).reverse.dropWhile Char.isWhitespace).reverse

/-- Helper of `jsSplitComma`: accumulate the current entry (reversed) while
scanning the character list. -/
def jsSplitCommaAux : List Char → List Char → List String
  | [], acc => [String.mk acc.reverse]
  | c :: cs, acc =>
    if c = (',') then String.mk acc.reverse :: jsSplitCommaAux cs []
    else jsSplitCommaAux cs (c :: acc)

/-- JavaScript `s.split(',')`: the empty string yields `[""]`, doubled or
trailing commas yield empty entries. -/
def jsSplitComma (s : String) : List String :=
  jsSplitCommaAux s.data []

/-- Join segments with slashes, structurally. -/
def joinSegsChars : List String → List Char
  | [] => []
  | [s] => s.data
  | s :: rest => s.data ++ ('/') :: joinSegsChars rest

/-- Render a path the way Node returns it: leading slash when absolute,
segments joined by slashes; the empty relative path renders as `""`. -/
def pathToString (p : Path) : String :=
  String.mk ((if p.isAbs then [('/')] else []) ++ joinSegsChars p.segs)

/-- Node `path.isAbsolute` on a rendered POSIX path string. -/
def isAbsoluteStr (s : String) : Bool :=
  strStartsWith s ("/")

/-- A package record of the workspace catalog: its name, its absolute on-disk
path, and the names of its declared dependencies.  Modelled from the spec:
`Packages.ts` (the catalog loader) is not part of the shown sources; the spec
describes a record with a unique name, a path, and declared dependency
names. -/
structure Package where
  packageName : String
  path : Path
  dependencies : List String
deriving DecidableEq, Repr

/-- Modelled from the spec: `getPackageByName` looks a package up in the
catalog by name. -/
def getPackageByName (catalog : List Package) (n : String) : Option Package :=
  catalog.find? (fun p => p.packageName = n)

/-- The fixed exclusion list `EXCLUDED_PACKAGES` of `CreateBareProject.ts`. -/
def EXCLUDED_PACKAGES : List String :=
  [("expo-module-template"), ("workspace-template"), ("first-package"),
   ("second-package"), ("unimodules-test-core")]

/-- The ownership test inside `getChangedPackagesAsync`: the package path is
made repository-relative, the changed file is taken relative to it, and the
file lies inside the package when that relative path is non-empty, does not
start with `..`, and is not absolute. -/
def fileInsidePkg (cwd : List String) (rootDir : Path) (pkg : Package) (file : Path) : Bool :=
  let pkgRelativePath := path_relative cwd rootDir pkg.path
  let relativePath := path_relative cwd pkgRelativePath file
  let s := pathToString relativePath
  !(s = ("")) && !(strStartsWith s ("..")) && !(isAbsoluteStr s)

/-- Embedding of `getChangedPackagesAsync`: for each changed file, for each
catalog package, push the package name when the file lies inside the package.
The nested for-loops with `result.push` are the bind of a `filterMap`. -/
def getChangedPackagesAsync (cwd : List String) (rootDir : Path)
    (allPackages : List Package) (changedFiles : List Path) : List String :=
  changedFiles.flatMap fun file =>
    allPackages.filterMap fun pkg =>
      if fileInsidePkg cwd rootDir pkg file then some pkg.packageName else none

/-- Embedding of `getExpoTransitivePackages`: dependency names of the `expo`
package, or a thrown error when it is absent from the catalog. -/
def getExpoTransitivePackages (catalog : List Package) : Except String (List String) :=
  match getPackageByName catalog ("expo") with
  | none => .error ("Cannot find the `expo` package.")
  | some expoPackage => .ok expoPackage.dependencies

/-- Embedding of `getExtraPackagesAsync`: the mode string is matched by exact
equality against `default`, `all`, `changed`; anything else is split on commas
and each entry trimmed.  The result is the default floor (expo's transitive
dependency names) followed by the mode-specific extras. -/
def getExtraPackagesAsync (cwd : List String) (rootDir : Path) (catalog : List Package)
    (changedFiles : List Path) (packages : String) : Except String (List String) :=
  match getExpoTransitivePackages catalog with
  | .error e => .error e
  | .ok defaultPackages =>
    let extraPackages : List String :=
      if packages = ("default") then []
      else if packages = ("all") then
        (catalog.map (fun pkg => pkg.packageName)).filter
          (fun packageName => !(packageName = ("")) && !(EXCLUDED_PACKAGES.contains packageName))
      else if packages = ("changed") then
        getChangedPackagesAsync cwd rootDir catalog changedFiles
      else
        (jsSplitComma packages).map jsTrim
    .ok (defaultPackages ++ extraPackages)

/-- A JavaScript object of string values, as an insertion-ordered association
list with unique keys. -/
def JsObj : Type := List (String × String)

/-- Property lookup on a JavaScript object. -/
def lookupJs (o : List (String × String)) (k : String) : Option String :=
  (o.find? (fun p => p.1 = k)).map (fun p => p.2)

/-- JavaScript property assignment `o[k] = v`: an existing key keeps its
position and gets the new value, a fresh key is appended. -/
def jsObjSet (o : List (String × String)) (k v : String) : List (String × String) :=
  if o.any (fun p => p.1 = k) then o.map (fun p => if p.1 = k then (k, v) else p)
  else o ++ [(k, v)]

/-- The project `package.json` as read by `prebuildProjectAsync`: its
`dependencies` object and its optional `resolutions` object. -/
structure PackageJson where
  dependencies : List (String × String)
  resolutions : Option (List (String × String))
deriving DecidableEq, Repr

/-- The `allPackageMap` built by a left `reduce` keyed on `packageName`: a
later package with the same name overwrites an earlier one, so lookup finds
the last occurrence. -/
def allPackageMapLookup (allPackages : List Package) (n : String) : Option Package :=
  allPackages.reverse.find? (fun p => p.packageName = n)

/-- Insertion into a JavaScript `Set`: ignored when already present, appended
otherwise (`Set` preserves first-insertion order). -/
def jsSetInsert (l : List Package) (p : Package) : List Package :=
  if p ∈ l then l else l ++ [p]

/-- The `installPackages` set of `prebuildProjectAsync`: manifest dependency
keys followed by the extra packages, kept when present in the catalog map,
mapped to their package records and collected into a `Set`. -/
def installPackagesOf (allPackages : List Package) (depKeys extraInstallPackages : List String) :
    List Package :=
  ((depKeys ++ extraInstallPackages).filterMap (allPackageMapLookup allPackages)).foldl
    jsSetInsert []

/-- The local relative path written for a package: its path relative to the
project directory, rendered as a string. -/
def relStr (cwd : List String) (projectDir : Path) (pkg : Package) : String :=
  pathToString (path_relative cwd projectDir pkg.path)

/-- One iteration of the install loop of `prebuildProjectAsync`:
`dependencies[name]` and `resolutions[name]` are both set to the package path
relative to the project directory. -/
def rewriteStep (cwd : List String) (projectDir : Path) (acc : PackageJson) (pkg : Package) :
    PackageJson :=
  let relativePath := relStr cwd projectDir pkg
  ⟨jsObjSet acc.dependencies pkg.packageName relativePath,
   acc.resolutions.map (fun r => jsObjSet r pkg.packageName relativePath)⟩

/-- The manifest-rewriting tail of `prebuildProjectAsync`: `resolutions ??= {}`
and then the install loop over the `installPackages` set. -/
def prebuildRewrite (cwd : List String) (projectDir : Path) (allPackages : List Package)
    (extraInstallPackages : List String) (pj : PackageJson) : PackageJson :=
  (installPackagesOf allPackages (pj.dependencies.map (fun p => p.1)) extraInstallPackages).foldl
    (rewriteStep cwd projectDir) ⟨pj.dependencies, some (pj.resolutions.getD [])⟩

/-- The glob pattern `expo-template-bare-minimum-*.tgz`. -/
def tarballPattern (s : String) : Bool :=
  strStartsWith s ("expo-template-bare-minimum-") && strEndsWith s (".tgz")

/-- The glob over the working directory for the packed template archive. -/
def globTarballs (workDirFiles : List String) : List String :=
  workDirFiles.filter tarballPattern

/-- Effect of `fs.promises.unlink` on the working-directory file listing. -/
def deleteFile (files : List String) (f : String) : List String :=
  files.filter (fun g => !(g = f))

/-- A `try { body } finally { fin }` whose body returns an outcome without
touching the files and whose finally clause is an infallible file-state
update: the finally clause runs on both exit paths, and the body's outcome —
success or error — is returned only together with the cleaned-up state. -/
def tryFinallyFS (body : List String → Except String Unit × List String)
    (fin : List String → List String) (s : List String) :
    Except String Unit × List String :=
  let r := body s
  (r.1, fin r.2)

/-- The archive phase of `prebuildProjectAsync`: after `npm pack` has dropped
its files into the working directory (reflected in `workDirFiles`), glob for
the tarball, throw when none matched, and otherwise run the external
`expo prebuild` (its outcome is the parameter) inside a try/finally that
unlinks the located tarball. -/
def prebuildArchivePhase (workDirFiles : List String)
    (prebuildOutcome : Except String Unit) : Except String Unit × List String :=
  match globTarballs workDirFiles with
  | [] => (.error ("Failed to create expo-template-bare-minimum tarball."), workDirFiles)
  | bareTemplateTarball :: _ =>
    tryFinallyFS (fun s => (prebuildOutcome, s))
      (fun s => deleteFile s bareTemplateTarball) workDirFiles

/-- Embedding of `prebuildProjectAsync` after the `app.json` merge: the
archive phase followed, on success, by the manifest rewrite.  Returns the
rewritten manifest (or the propagated error) together with the final
working-directory file listing. -/
def prebuildProjectAsync (cwd : List String) (projectDir : Path) (allPackages : List Package)
    (extraInstallPackages : List String) (workDirFiles : List String)
    (prebuildOutcome : Except String Unit) (pj : PackageJson) :
    Except String PackageJson × List String :=
  match prebuildArchivePhase workDirFiles prebuildOutcome with
  | (.error e, files) => (.error e, files)
  | (.ok _, files) =>
    (.ok (prebuildRewrite cwd projectDir allPackages extraInstallPackages pj), files)

/-- Observable side effects of the pipeline: filesystem reads and writes and
external process invocations, in order. -/
inductive Event where
  | catalogLoad : Event
  | gitQuery : Event
  | expoInit : Event
  | appJsonMerge : Event
  | npmPack : Event
  | globSearch : Event
  | expoPrebuild : Event
  | unlinkTarball : Event
  | manifestRead : Event
  | manifestWrite : Event
  | yarnInstall : Event
deriving DecidableEq, Repr

/-- The command options; `name` defaults to `null`, modelled as `none`. -/
structure ActionOptions where
  name : Option String
  packages : String
deriving DecidableEq, Repr

/-- JavaScript truthiness of the `name` option: `null` and the empty string
are falsy. -/
def jsTruthyName : Option String → Bool
  | none => false
  | some s => !(s = (""))

/-- Embedding of `action`: validate the name, select extra packages, scaffold
(`expo init`), prebuild (app.json merge, `npm pack`, glob, `expo prebuild`
in a try/finally with the tarball unlink, manifest rewrite), then `yarn`.
Alongside the outcome it returns the trace of filesystem and process events
that were reached, in order. -/
def action (opts : ActionOptions) (cwd : List String) (rootDir projectDir : Path)
    (catalog : List Package) (changedFiles : List Path) (workDirFilesAfterPack : List String)
    (prebuildOutcome : Except String Unit) (pj : PackageJson) :
    List Event × Except String Unit :=
  if !(jsTruthyName opts.name) then
    ([], .error ("Missing project name. Run with `--name <string>`."))
  else
    let selEvents :=
      [Event.catalogLoad] ++ (if opts.packages = ("changed") then [Event.gitQuery] else [])
    match getExtraPackagesAsync cwd rootDir catalog changedFiles opts.packages with
    | .error e => (selEvents, .error e)
    | .ok extraPackages =>
      let preEvents := selEvents ++
        [Event.expoInit, Event.appJsonMerge, Event.npmPack, Event.globSearch]
      match prebuildProjectAsync cwd projectDir catalog extraPackages workDirFilesAfterPack
          prebuildOutcome pj with
      | (.error e, _) =>
        if (globTarballs workDirFilesAfterPack).isEmpty then (preEvents, .error e)
        else (preEvents ++ [Event.expoPrebuild, Event.unlinkTarball], .error e)
      | (.ok _, _) =>
        (preEvents ++ [Event.expoPrebuild, Event.unlinkTarball, Event.manifestRead,
          Event.manifestWrite, Event.yarnInstall], .ok ())

/-! ## Helper lemmas -/

theorem prebuildArchivePhase_eq (files : List String) (outcome : Except String Unit)
    (t : String) (ts : List String) (h : globTarballs files = t :: ts) :
    prebuildArchivePhase files outcome = (outcome, deleteFile files t) := by
  unfold prebuildArchivePhase
  rw [h]
  rfl

theorem not_mem_deleteFile (files : List String) (t : String) : t ∉ deleteFile files t := by
  simp [deleteFile]

theorem globTarballs_deleteFile (files : List String) (t : String) :
    globTarballs (deleteFile files t) = List.filter (fun g => !(g = t)) (globTarballs files) := by
  unfold globTarballs deleteFile
  rw [List.filter_filter, List.filter_filter]
  exact List.filter_congr (fun a _ => Bool.and_comm _ _)

theorem getExtraPackagesAsync_explicit (cwd : List String) (rootDir : Path)
    (catalog : List Package) (changedFiles : List Path) (packages : String) (e : Package)
    (he : getPackageByName catalog ("expo") = some e)
    (h1 : packages ≠ ("default")) (h2 : packages ≠ ("all")) (h3 : packages ≠ ("changed")) :
    getExtraPackagesAsync cwd rootDir catalog changedFiles packages =
      .ok (e.dependencies ++ (jsSplitComma packages).map jsTrim) := by
  unfold getExtraPackagesAsync getExpoTransitivePackages
  rw [he]
  simp only [if_neg h1, if_neg h2, if_neg h3]

theorem getExtraPackagesAsync_default (cwd : List String) (rootDir : Path)
    (catalog : List Package) (changedFiles : List Path) (e : Package)
    (he : getPackageByName catalog ("expo") = some e) :
    getExtraPackagesAsync cwd rootDir catalog changedFiles ("default") =
      .ok (e.dependencies ++ []) := by
  unfold getExtraPackagesAsync getExpoTransitivePackages
  rw [he]
  rfl

theorem getExtraPackagesAsync_changed (cwd : List String) (rootDir : Path)
    (catalog : List Package) (changedFiles : List Path) (e : Package)
    (he : getPackageByName catalog ("expo") = some e) :
    getExtraPackagesAsync cwd rootDir catalog changedFiles ("changed") =
      .ok (e.dependencies ++ getChangedPackagesAsync cwd rootDir catalog changedFiles) := by
  unfold getExtraPackagesAsync getExpoTransitivePackages
  rw [he]
  rfl

theorem getExtraPackagesAsync_all (cwd : List String) (rootDir : Path)
    (catalog : List Package) (changedFiles : List Path) (e : Package)
    (he : getPackageByName catalog ("expo") = some e) :
    getExtraPackagesAsync cwd rootDir catalog changedFiles ("all") =
      .ok (e.dependencies ++ (catalog.map (fun pkg => pkg.packageName)).filter
        (fun packageName => !(packageName = ("")) && !(EXCLUDED_PACKAGES.contains packageName))) := by
  unfold getExtraPackagesAsync getExpoTransitivePackages
  rw [he]
  rfl

theorem mem_getChangedPackagesAsync (cwd : List String) (rootDir : Path)
    (allPackages : List Package) (changedFiles : List Path) (n : String) :
    n ∈ getChangedPackagesAsync cwd rootDir allPackages changedFiles ↔
      ∃ file ∈ changedFiles, ∃ pkg ∈ allPackages,
        pkg.packageName = n ∧ fileInsidePkg cwd rootDir pkg file = true := by
  unfold getChangedPackagesAsync
  simp only [List.mem_flatMap, List.mem_filterMap]
  constructor
  · rintro ⟨f, hf, pkg, hpkg, hif⟩
    by_cases hc : fileInsidePkg cwd rootDir pkg f = true
    · rw [if_pos hc] at hif
      exact ⟨f, hf, pkg, hpkg, Option.some.inj hif, hc⟩
    · rw [if_neg hc] at hif
      exact absurd hif (by simp)
  · rintro ⟨f, hf, pkg, hpkg, hn, hc⟩
    exact ⟨f, hf, pkg, hpkg, by rw [if_pos hc, hn]⟩

theorem name_inj (allPackages : List Package)
    (hnd : (allPackages.map (fun q => q.packageName)).Nodup)
    (p q : Package) (hp : p ∈ allPackages) (hq : q ∈ allPackages)
    (h : p.packageName = q.packageName) : p = q :=
  List.inj_on_of_nodup_map hnd hp hq h

theorem count_inner_not_mem (cwd : List String) (rootDir : Path) (f : Path) (n : String)
    (pkgs : List Package) (h : n ∉ pkgs.map (fun q => q.packageName)) :
    (pkgs.filterMap (fun pkg =>
      if fileInsidePkg cwd rootDir pkg f then some pkg.packageName else none)).count n = 0 := by
  induction pkgs with
  | nil => rfl
  | cons q rest ih =>
    simp only [List.map_cons, List.mem_cons, not_or] at h
    obtain ⟨hq, hrest⟩ := h
    by_cases hc : fileInsidePkg cwd rootDir q f = true
    · have hne : (q.packageName == n) = false := by
        rw [beq_eq_false_iff_ne]
        exact fun hh => hq hh.symm
      simp [List.filterMap_cons, hc, List.count_cons, hne, ih hrest]
    · simp [List.filterMap_cons, hc, ih hrest]

theorem count_inner (cwd : List String) (rootDir : Path) (f : Path) (p : Package)
    (pkgs : List Package) (hnd : (pkgs.map (fun q => q.packageName)).Nodup) (hp : p ∈ pkgs) :
    (pkgs.filterMap (fun pkg =>
      if fileInsidePkg cwd rootDir pkg f then some pkg.packageName else none)).count
        p.packageName =
      if fileInsidePkg cwd rootDir p f = true then 1 else 0 := by
  induction pkgs with
  | nil => cases hp
  | cons q rest ih =>
    rw [List.map_cons, List.nodup_cons] at hnd
    obtain ⟨hqn, hndrest⟩ := hnd
    rcases List.mem_cons.mp hp with rfl | hprest
    · by_cases hc : fileInsidePkg cwd rootDir p f = true
      · simp [List.filterMap_cons, hc, List.count_cons,
          count_inner_not_mem cwd rootDir f p.packageName rest hqn]
      · simp [List.filterMap_cons, hc,
          count_inner_not_mem cwd rootDir f p.packageName rest hqn]
    · have hne : (q.packageName == p.packageName) = false := by
        rw [beq_eq_false_iff_ne]
        exact fun hh => hqn (hh ▸ List.mem_map_of_mem (fun r => r.packageName) hprest)
      by_cases hc : fileInsidePkg cwd rootDir q f = true
      · simp [List.filterMap_cons, hc, List.count_cons, hne, ih hndrest hprest]
      · simp [List.filterMap_cons, hc, ih hndrest hprest]

theorem lookupJs_cons (a : String × String) (o : List (String × String)) (k : String) :
    lookupJs (a :: o) k = if a.1 = k then some a.2 else lookupJs o k := by
  unfold lookupJs
  rw [List.find?_cons]
  by_cases h : a.1 = k
  · simp [h]
  · simp [h]

theorem lookup_map_update_hit (o : List (String × String)) (k v : String)
    (h : o.any (fun p => p.1 = k) = true) :
    lookupJs (o.map (fun p => if p.1 = k then (k, v) else p)) k = some v := by
  induction o with
  | nil => cases h
  | cons a o ih =>
    rw [List.map_cons]
    by_cases ha : a.1 = k
    · rw [if_pos ha, lookupJs_cons, if_pos rfl]
    · rw [if_neg ha, lookupJs_cons, if_neg ha]
      apply ih
      rw [List.any_cons] at h
      simpa [ha] using h

theorem lookup_map_update_miss (o : List (String × String)) (k v k' : String) (h : k' ≠ k) :
    lookupJs (o.map (fun p => if p.1 = k then (k, v) else p)) k' = lookupJs o k' := by
  induction o with
  | nil => rfl
  | cons a o ih =>
    rw [List.map_cons]
    by_cases ha : a.1 = k
    · rw [if_pos ha, lookupJs_cons, lookupJs_cons]
      have h1 : ¬ (((k, v) : String × String).1 = k') := fun hh => h hh.symm
      have h2 : ¬ (a.1 = k') := fun hh => h (ha.symm.trans hh).symm
      rw [if_neg h1, if_neg h2]
      exact ih
    · rw [if_neg ha, lookupJs_cons, lookupJs_cons]
      by_cases ha' : a.1 = k'
      · rw [if_pos ha', if_pos ha']
      · rw [if_neg ha', if_neg ha']
        exact ih

theorem lookup_append_single_hit (o : List (String × String)) (k v : String)
    (h : o.any (fun p => p.1 = k) = false) :
    lookupJs (o ++ [(k, v)]) k = some v := by
  induction o with
  | nil =>
    rw [List.nil_append, lookupJs_cons, if_pos rfl]
  | cons a o ih =>
    rw [List.any_cons] at h
    rcases Bool.or_eq_false_iff.mp h with ⟨h1, h2⟩
    have ha : ¬ (a.1 = k) := by simpa using h1
    rw [List.cons_append, lookupJs_cons, if_neg ha]
    exact ih h2

theorem lookup_append_single_miss (o : List (String × String)) (k v k' : String) (h : k' ≠ k) :
    lookupJs (o ++ [(k, v)]) k' = lookupJs o k' := by
  induction o with
  | nil =>
    have h1 : ¬ (((k, v) : String × String).1 = k') := fun hh => h hh.symm
    rw [List.nil_append, lookupJs_cons, if_neg h1]
  | cons a o ih =>
    rw [List.cons_append, lookupJs_cons, lookupJs_cons]
    by_cases ha : a.1 = k'
    · rw [if_pos ha, if_pos ha]
    · rw [if_neg ha, if_neg ha]
      exact ih

theorem lookupJs_jsObjSet (o : List (String × String)) (k v k' : String) :
    lookupJs (jsObjSet o k v) k' = if k' = k then some v else lookupJs o k' := by
  unfold jsObjSet
  by_cases hany : o.any (fun p => p.1 = k) = true
  · rw [if_pos hany]
    by_cases hk : k' = k
    · subst hk
      rw [if_pos rfl]
      exact lookup_map_update_hit o k' v hany
    · rw [if_neg hk]
      exact lookup_map_update_miss o k v k' hk
  · rw [if_neg hany]
    by_cases hk : k' = k
    · subst hk
      rw [if_pos rfl]
      exact lookup_append_single_hit o k' v (Bool.not_eq_true _ ▸ hany)
    · rw [if_neg hk]
      exact lookup_append_single_miss o k v k' hk

theorem lookupJs_eq_none (o : List (String × String)) (n : String) :
    lookupJs o n = none ↔ n ∉ o.map (fun p => p.1) := by
  unfold lookupJs
  rw [Option.map_eq_none', List.find?_eq_none]
  simp only [List.mem_map, decide_eq_true_eq]
  constructor
  · rintro h ⟨x, hx, hxn⟩
    exact h x hx hxn
  · intro h x hx hxn
    exact h ⟨x, hx, hxn⟩

theorem rewriteStep_deps (cwd : List String) (projectDir : Path) (acc : PackageJson)
    (pkg : Package) (n : String) :
    lookupJs (rewriteStep cwd projectDir acc pkg).dependencies n =
      if n = pkg.packageName then some (relStr cwd projectDir pkg)
      else lookupJs acc.dependencies n :=
  lookupJs_jsObjSet acc.dependencies pkg.packageName (relStr cwd projectDir pkg) n

theorem rewriteStep_res (cwd : List String) (projectDir : Path) (acc : PackageJson)
    (pkg : Package) (r : List (String × String)) (hr : acc.resolutions = some r) :
    (rewriteStep cwd projectDir acc pkg).resolutions =
      some (jsObjSet r pkg.packageName (relStr cwd projectDir pkg)) := by
  unfold rewriteStep
  rw [hr]
  rfl

theorem foldl_rewriteStep_deps (cwd : List String) (projectDir : Path) (l : List Package)
    (acc : PackageJson) (n : String) :
    lookupJs ((l.foldl (rewriteStep cwd projectDir) acc).dependencies) n =
      match l.reverse.find? (fun q => q.packageName = n) with
      | some q => some (relStr cwd projectDir q)
      | none => lookupJs acc.dependencies n := by
  induction l generalizing acc with
  | nil => rfl
  | cons p l ih =>
    rw [List.foldl_cons, ih (rewriteStep cwd projectDir acc p), List.reverse_cons,
      List.find?_append]
    cases hfind : l.reverse.find? (fun q => q.packageName = n) with
    | some q => rfl
    | none =>
      by_cases hp : p.packageName = n
      · have hsingle : List.find? (fun q => q.packageName = n) [p] = some p := by
          simp [List.find?_cons, hp]
        rw [hsingle, rewriteStep_deps, if_pos hp.symm]
        rfl
      · have hsingle : List.find? (fun q => q.packageName = n) [p] = none := by
          simp [List.find?_cons, hp]
        rw [hsingle, rewriteStep_deps, if_neg (fun hh => hp hh.symm)]
        rfl

theorem foldl_rewriteStep_res (cwd : List String) (projectDir : Path) (l : List Package)
    (acc : PackageJson) (r : List (String × String)) (hr : acc.resolutions = some r) :
    ∃ r', (l.foldl (rewriteStep cwd projectDir) acc).resolutions = some r' ∧
      ∀ n, lookupJs r' n =
        match l.reverse.find? (fun q => q.packageName = n) with
        | some q => some (relStr cwd projectDir q)
        | none => lookupJs r n := by
  induction l generalizing acc r with
  | nil => exact ⟨r, hr, fun n => rfl⟩
  | cons p l ih =>
    rw [List.foldl_cons]
    obtain ⟨r', h1, h2⟩ := ih (rewriteStep cwd projectDir acc p)
      (jsObjSet r p.packageName (relStr cwd projectDir p))
      (rewriteStep_res cwd projectDir acc p r hr)
    refine ⟨r', h1, fun n => ?_⟩
    rw [h2 n, List.reverse_cons, List.find?_append]
    cases hfind : l.reverse.find? (fun q => q.packageName = n) with
    | some q => rfl
    | none =>
      by_cases hp : p.packageName = n
      · have hsingle : List.find? (fun q => q.packageName = n) [p] = some p := by
          simp [List.find?_cons, hp]
        rw [hsingle, lookupJs_jsObjSet, if_pos hp.symm]
        rfl
      · have hsingle : List.find? (fun q => q.packageName = n) [p] = none := by
          simp [List.find?_cons, hp]
        rw [hsingle, lookupJs_jsObjSet, if_neg (fun hh => hp hh.symm)]
        rfl

theorem mem_foldl_jsSetInsert (l acc : List Package) (p : Package) :
    p ∈ l.foldl jsSetInsert acc ↔ p ∈ acc ∨ p ∈ l := by
  induction l generalizing acc with
  | nil => simp
  | cons a l ih =>
    rw [List.foldl_cons, ih]
    unfold jsSetInsert
    by_cases h : a ∈ acc
    · rw [if_pos h]
      constructor
      · rintro (hp | hp)
        · exact Or.inl hp
        · exact Or.inr (List.mem_cons_of_mem a hp)
      · rintro (hp | hp)
        · exact Or.inl hp
        · rcases List.mem_cons.mp hp with rfl | hp
          · exact Or.inl h
          · exact Or.inr hp
    · rw [if_neg h]
      simp only [List.mem_append, List.mem_cons, List.mem_singleton]
      tauto

theorem mem_installPackagesOf (allPackages : List Package) (depKeys extra : List String)
    (p : Package) :
    p ∈ installPackagesOf allPackages depKeys extra ↔
      ∃ n ∈ depKeys ++ extra, allPackageMapLookup allPackages n = some p := by
  unfold installPackagesOf
  rw [mem_foldl_jsSetInsert]
  simp only [List.not_mem_nil, false_or, List.mem_filterMap, List.mem_append]

theorem allPackageMapLookup_some (allPackages : List Package) (n : String) (p : Package)
    (h : allPackageMapLookup allPackages n = some p) :
    p ∈ allPackages ∧ p.packageName = n := by
  unfold allPackageMapLookup at h
  have h1 := List.mem_of_find?_eq_some h
  have h2 := List.find?_some h
  exact ⟨List.mem_reverse.mp h1, by simpa using h2⟩

theorem allPackageMapLookup_self (allPackages : List Package) (p : Package)
    (hp : p ∈ allPackages) (hnd : (allPackages.map (fun q => q.packageName)).Nodup) :
    allPackageMapLookup allPackages p.packageName = some p := by
  cases h : allPackageMapLookup allPackages p.packageName with
  | none =>
    unfold allPackageMapLookup at h
    rw [List.find?_eq_none] at h
    have hfalse := h p (List.mem_reverse.mpr hp)
    simp at hfalse
  | some q =>
    obtain ⟨hq, hqn⟩ := allPackageMapLookup_some allPackages p.packageName q h
    rw [name_inj allPackages hnd q p hq hp hqn]

theorem installFind_some (allPackages : List Package) (depKeys extra : List String)
    (hnd : (allPackages.map (fun q => q.packageName)).Nodup) (n : String) (p : Package)
    (hp : p ∈ allPackages) (hpn : p.packageName = n) (hmem : n ∈ depKeys ∨ n ∈ extra) :
    (installPackagesOf allPackages depKeys extra).reverse.find?
      (fun q => q.packageName = n) = some p := by
  have hlookup : allPackageMapLookup allPackages n = some p :=
    hpn ▸ allPackageMapLookup_self allPackages p hp hnd
  have hpL : p ∈ installPackagesOf allPackages depKeys extra :=
    (mem_installPackagesOf allPackages depKeys extra p).mpr
      ⟨n, List.mem_append.mpr hmem, hlookup⟩
  cases hf : (installPackagesOf allPackages depKeys extra).reverse.find?
      (fun q => q.packageName = n) with
  | none =>
    rw [List.find?_eq_none] at hf
    have hfalse := hf p (List.mem_reverse.mpr hpL)
    simp [hpn] at hfalse
  | some q =>
    have hqpred : q.packageName = n := by simpa using List.find?_some hf
    have hqmem : q ∈ installPackagesOf allPackages depKeys extra :=
      List.mem_reverse.mp (List.mem_of_find?_eq_some hf)
    obtain ⟨n2, hn2, hq⟩ := (mem_installPackagesOf allPackages depKeys extra q).mp hqmem
    obtain ⟨hqAll, _⟩ := allPackageMapLookup_some allPackages n2 q hq
    rw [name_inj allPackages hnd q p hqAll hp (hqpred.trans hpn.symm)]

theorem installFind_none (allPackages : List Package) (depKeys extra : List String) (n : String)
    (hn : (∀ p ∈ allPackages, p.packageName ≠ n) ∨ (n ∉ depKeys ∧ n ∉ extra)) :
    (installPackagesOf allPackages depKeys extra).reverse.find?
      (fun q => q.packageName = n) = none := by
  rw [List.find?_eq_none]
  intro q hq
  simp only [decide_eq_true_eq]
  intro hqn
  have hqL : q ∈ installPackagesOf allPackages depKeys extra := List.mem_reverse.mp hq
  obtain ⟨n2, hn2, hlq⟩ := (mem_installPackagesOf allPackages depKeys extra q).mp hqL
  obtain ⟨hqAll, hqname⟩ := allPackageMapLookup_some allPackages n2 q hlq
  rcases hn with hall | ⟨hd, he⟩
  · exact hall q hqAll hqn
  · have hn2n : n2 = n := hqname.symm.trans hqn
    subst hn2n
    rcases List.mem_append.mp hn2 with h | h
    · exact hd h
    · exact he h

/-! ## Claim theorems -/

/-- C3: in every run where the template archive was located after packing
(the glob returned it first), the located archive is deleted from the working
directory whether the external prebuild step succeeds or throws, and the
step's outcome — in particular a thrown failure — is returned only together
with the already-cleaned-up state: the phase's result pairs the propagated
outcome with the state in which the deletion has completed. -/
theorem archive_cleanup_on_all_paths (files : List String) (outcome : Except String Unit)
    (t : String) (ts : List String) (h : globTarballs files = t :: ts) :
    t ∉ (prebuildArchivePhase files outcome).2 ∧
    (prebuildArchivePhase files outcome).1 = outcome ∧
    prebuildArchivePhase files outcome = (outcome, deleteFile files t) := by
  rw [prebuildArchivePhase_eq files outcome t ts h]
  exact ⟨not_mem_deleteFile files t, rfl, rfl⟩

/-- Witness for C3: a concrete run whose prebuild step throws still ends with
the located archive removed, and the error is the one propagated. -/
theorem archive_cleanup_on_all_paths_witness :
    ("expo-template-bare-minimum-45.0.0.tgz") ∉
      (prebuildArchivePhase [("expo-template-bare-minimum-45.0.0.tgz"), ("App.js")]
        (.error ("prebuild failed"))).2 ∧
    (prebuildArchivePhase [("expo-template-bare-minimum-45.0.0.tgz"), ("App.js")]
        (.error ("prebuild failed"))).1 = .error ("prebuild failed") :=
  ⟨(archive_cleanup_on_all_paths [("expo-template-bare-minimum-45.0.0.tgz"), ("App.js")]
      (.error ("prebuild failed")) ("expo-template-bare-minimum-45.0.0.tgz") [] (by decide)).1,
   (archive_cleanup_on_all_paths [("expo-template-bare-minimum-45.0.0.tgz"), ("App.js")]
      (.error ("prebuild failed")) ("expo-template-bare-minimum-45.0.0.tgz") [] (by decide)).2.1⟩

/-- C8 counterexample: with two files matching the archive name pattern in the
working directory, only the first located one is unlinked; the second still
matches the pattern and remains after the phase returns successfully. -/
theorem leftover_tarball_after_prebuild :
    tarballPattern ("expo-template-bare-minimum-2.0.0.tgz") = true ∧
    ("expo-template-bare-minimum-2.0.0.tgz") ∈
      (prebuildArchivePhase
        [("expo-template-bare-minimum-1.0.0.tgz"), ("expo-template-bare-minimum-2.0.0.tgz")]
        (.ok ())).2 :=
  ⟨by decide, by decide⟩

/-- C8 amended: when exactly one working-directory file matches the archive
name pattern at the time the archive is located, no matching file remains
after the phase returns, on success and on failure alike. -/
theorem single_tarball_cleanup (files : List String) (outcome : Except String Unit)
    (t : String) (h : globTarballs files = [t]) :
    globTarballs ((prebuildArchivePhase files outcome).2) = [] := by
  rw [prebuildArchivePhase_eq files outcome t [] h]
  show globTarballs (deleteFile files t) = []
  rw [globTarballs_deleteFile, h]
  simp

/-- Witness for the amended C8 at a concrete single-match directory with a
failing prebuild step. -/
theorem single_tarball_cleanup_witness :
    globTarballs ((prebuildArchivePhase [("expo-template-bare-minimum-1.0.0.tgz"), ("other.txt")]
      (.error ("boom"))).2) = [] :=
  single_tarball_cleanup _ _ ("expo-template-bare-minimum-1.0.0.tgz") (by decide)

/-- C9: with an empty or absent project name, `action` fails with the
missing-name error and an empty event trace: no filesystem read or write and
no external process happens before the failure, so no catalog load,
scaffolding, packing, or prebuild work begins. -/
theorem action_missing_name (opts : ActionOptions) (cwd : List String)
    (rootDir projectDir : Path) (catalog : List Package) (changedFiles : List Path)
    (workDirFilesAfterPack : List String) (prebuildOutcome : Except String Unit)
    (pj : PackageJson) (h : opts.name = none ∨ opts.name = some ("")) :
    action opts cwd rootDir projectDir catalog changedFiles workDirFilesAfterPack
        prebuildOutcome pj =
      ([], .error ("Missing project name. Run with `--name <string>`.")) := by
  have hf : jsTruthyName opts.name = false := by
    rcases h with h | h <;> rw [h] <;> rfl
  unfold action
  rw [hf]
  rfl

/-- Witness for C9 at a concrete invocation with an absent name. -/
theorem action_missing_name_witness :
    action ⟨none, ("default")⟩ [] ⟨true, [("repo")]⟩ ⟨true, [("work"), ("myapp")]⟩ [] [] []
        (.ok ()) ⟨[], none⟩ =
      ([], .error ("Missing project name. Run with `--name <string>`.")) :=
  action_missing_name _ _ _ _ _ _ _ _ _ (Or.inl rfl)

/-- C10: the selection mode is matched by exact string equality, so any other
value — including case variants such as `All` and values with surrounding
whitespace such as `" all"` — is treated as a comma-separated explicit list
with per-entry trimming, and doubled or trailing commas yield empty-string
entries. -/
theorem mode_match_is_exact (cwd : List String) (rootDir : Path) (catalog : List Package)
    (changedFiles : List Path) (e : Package)
    (he : getPackageByName catalog ("expo") = some e) :
    (∀ packages : String, packages ≠ ("default") → packages ≠ ("all") → packages ≠ ("changed") →
      getExtraPackagesAsync cwd rootDir catalog changedFiles packages =
        .ok (e.dependencies ++ (jsSplitComma packages).map jsTrim)) ∧
    getExtraPackagesAsync cwd rootDir catalog changedFiles (" all") =
      .ok (e.dependencies ++ [("all")]) ∧
    getExtraPackagesAsync cwd rootDir catalog changedFiles ("All") =
      .ok (e.dependencies ++ [("All")]) ∧
    getExtraPackagesAsync cwd rootDir catalog changedFiles ("pkg-a,,pkg-b,") =
      .ok (e.dependencies ++ [("pkg-a"), (""), ("pkg-b"), ("")]) := by
  refine ⟨fun p h1 h2 h3 =>
    getExtraPackagesAsync_explicit cwd rootDir catalog changedFiles p e he h1 h2 h3, ?_, ?_, ?_⟩
  · rw [getExtraPackagesAsync_explicit cwd rootDir catalog changedFiles (" all") e he
      (by decide) (by decide) (by decide)]
    rfl
  · rw [getExtraPackagesAsync_explicit cwd rootDir catalog changedFiles ("All") e he
      (by decide) (by decide) (by decide)]
    rfl
  · rw [getExtraPackagesAsync_explicit cwd rootDir catalog changedFiles ("pkg-a,,pkg-b,") e he
      (by decide) (by decide) (by decide)]
    rfl

/-- Witness for C10: a catalog with one entry package, mode string `" all"`:
the result is the default floor followed by the literal name `all`. -/
theorem mode_match_is_exact_witness :
    getExtraPackagesAsync [] ⟨true, [("repo")]⟩
        [⟨("expo"), ⟨true, [("repo"), ("packages"), ("expo")]⟩, [("expo-asset")]⟩] [] (" all") =
      .ok ([("expo-asset")] ++ [("all")]) :=
  (mode_match_is_exact [] ⟨true, [("repo")]⟩
    [⟨("expo"), ⟨true, [("repo"), ("packages"), ("expo")]⟩, [("expo-asset")]⟩] []
    ⟨("expo"), ⟨true, [("repo"), ("packages"), ("expo")]⟩, [("expo-asset")]⟩ rfl).2.1

/-- C4: in every selection mode — default, all, changed, explicit list — the
selector's output starts with the entry package's transitive dependency names
(the default floor, in catalog dependency order) and continues with exactly
the extras the active mode produced, in their order; every floor name is in
the result, so no mode replaces or drops the default floor. -/
theorem selection_keeps_default_floor (cwd : List String) (rootDir : Path)
    (catalog : List Package) (changedFiles : List Path) (e : Package) (packages : String)
    (l : List String) (he : getPackageByName catalog ("expo") = some e)
    (hl : getExtraPackagesAsync cwd rootDir catalog changedFiles packages = .ok l) :
    l.take e.dependencies.length = e.dependencies ∧
    (∀ d ∈ e.dependencies, d ∈ l) ∧
    (packages = ("default") → l.drop e.dependencies.length = []) ∧
    (packages = ("all") → l.drop e.dependencies.length =
      (catalog.map (fun pkg => pkg.packageName)).filter
        (fun n => !(n = ("")) && !(EXCLUDED_PACKAGES.contains n))) ∧
    (packages = ("changed") → l.drop e.dependencies.length =
      getChangedPackagesAsync cwd rootDir catalog changedFiles) ∧
    (packages ≠ ("default") → packages ≠ ("all") → packages ≠ ("changed") →
      l.drop e.dependencies.length = (jsSplitComma packages).map jsTrim) := by
  by_cases h1 : packages = ("default")
  · subst h1
    rw [getExtraPackagesAsync_default cwd rootDir catalog changedFiles e he] at hl
    have hl' : e.dependencies ++ [] = l := by injection hl
    subst hl'
    exact ⟨List.take_left _ _, fun d hd => List.mem_append_left _ hd,
      fun _ => List.drop_left _ _, fun h => absurd h (by decide),
      fun h => absurd h (by decide), fun h _ _ => absurd rfl h⟩
  by_cases h2 : packages = ("all")
  · subst h2
    rw [getExtraPackagesAsync_all cwd rootDir catalog changedFiles e he] at hl
    have hl' : e.dependencies ++ (catalog.map (fun pkg => pkg.packageName)).filter
        (fun n => !(n = ("")) && !(EXCLUDED_PACKAGES.contains n)) = l := by injection hl
    subst hl'
    exact ⟨List.take_left _ _, fun d hd => List.mem_append_left _ hd,
      fun h => absurd h (by decide), fun _ => List.drop_left _ _,
      fun h => absurd h (by decide), fun _ h _ => absurd rfl h⟩
  by_cases h3 : packages = ("changed")
  · subst h3
    rw [getExtraPackagesAsync_changed cwd rootDir catalog changedFiles e he] at hl
    have hl' : e.dependencies ++ getChangedPackagesAsync cwd rootDir catalog changedFiles = l := by
      injection hl
    subst hl'
    exact ⟨List.take_left _ _, fun d hd => List.mem_append_left _ hd,
      fun h => absurd h (by decide), fun h => absurd h (by decide),
      fun _ => List.drop_left _ _, fun _ _ h => absurd rfl h⟩
  · rw [getExtraPackagesAsync_explicit cwd rootDir catalog changedFiles packages e he h1 h2 h3]
      at hl
    have hl' : e.dependencies ++ (jsSplitComma packages).map jsTrim = l := by injection hl
    subst hl'
    exact ⟨List.take_left _ _, fun d hd => List.mem_append_left _ hd,
      fun h => absurd h h1, fun h => absurd h h2, fun h => absurd h h3,
      fun _ _ _ => List.drop_left _ _⟩

/-- Witness for C4 at a concrete two-package catalog in changed mode: the
floor comes first and every floor name is present. -/
theorem selection_keeps_default_floor_witness :
    [("expo-asset"), ("expo-camera")].take 1 = [("expo-asset")] ∧
    ("expo-asset") ∈ [("expo-asset"), ("expo-camera")] :=
  ⟨(selection_keeps_default_floor [] ⟨true, [("repo")]⟩
      [⟨("expo"), ⟨true, [("repo"), ("packages"), ("expo")]⟩, [("expo-asset")]⟩,
       ⟨("expo-camera"), ⟨true, [("repo"), ("packages"), ("expo-camera")]⟩, []⟩]
      [⟨false, [("packages"), ("expo-camera"), ("ios"), ("Foo.m")]⟩]
      ⟨("expo"), ⟨true, [("repo"), ("packages"), ("expo")]⟩, [("expo-asset")]⟩
      ("changed") [("expo-asset"), ("expo-camera")] rfl rfl).1,
   (selection_keeps_default_floor [] ⟨true, [("repo")]⟩
      [⟨("expo"), ⟨true, [("repo"), ("packages"), ("expo")]⟩, [("expo-asset")]⟩,
       ⟨("expo-camera"), ⟨true, [("repo"), ("packages"), ("expo-camera")]⟩, []⟩]
      [⟨false, [("packages"), ("expo-camera"), ("ios"), ("Foo.m")]⟩]
      ⟨("expo"), ⟨true, [("repo"), ("packages"), ("expo")]⟩, [("expo-asset")]⟩
      ("changed") [("expo-asset"), ("expo-camera")] rfl rfl).2.1 ("expo-asset") (by decide)⟩

/-- C5 counterexample: with `expo-router` among the entry package's declared
dependencies, the explicit list `"expo-router, expo-camera"` yields a result
containing `expo-router` twice: the concatenation of floor and extras is not
deduplicated, so the result is not the deduplicated set union the claim
states. -/
theorem explicit_list_duplicate_names :
    getExtraPackagesAsync [] ⟨true, [("repo")]⟩
        [⟨("expo"), ⟨true, [("repo"), ("packages"), ("expo")]⟩, [("expo-router")]⟩] []
        ("expo-router, expo-camera") =
      .ok [("expo-router"), ("expo-router"), ("expo-camera")] ∧
    ¬ ([("expo-router"), ("expo-router"), ("expo-camera")] : List String).Nodup :=
  ⟨rfl, by decide⟩

/-- C5 amended: the result of the explicit-list mode input
`"expo-router, expo-camera"` equals, as a set, the union of the entry
package's transitive dependency names with the two listed names; duplicates
may occur in the sequence because the concatenation is not deduplicated. -/
theorem explicit_list_union (cwd : List String) (rootDir : Path) (catalog : List Package)
    (changedFiles : List Path) (e : Package) (l : List String)
    (he : getPackageByName catalog ("expo") = some e)
    (hl : getExtraPackagesAsync cwd rootDir catalog changedFiles ("expo-router, expo-camera") =
      .ok l) :
    ∀ n, n ∈ l ↔ n ∈ e.dependencies ∨ n = ("expo-router") ∨ n = ("expo-camera") := by
  rw [getExtraPackagesAsync_explicit cwd rootDir catalog changedFiles
    ("expo-router, expo-camera") e he (by decide) (by decide) (by decide)] at hl
  have hsplit : (jsSplitComma ("expo-router, expo-camera")).map jsTrim =
      [("expo-router"), ("expo-camera")] := rfl
  rw [hsplit] at hl
  have hl' : e.dependencies ++ [("expo-router"), ("expo-camera")] = l := by injection hl
  subst hl'
  intro n
  simp

/-- Witness for the amended C5, instantiated at the member `expo-router`. -/
theorem explicit_list_union_witness :
    ("expo-router") ∈ [("expo-asset"), ("expo-router"), ("expo-camera")] ↔
      ("expo-router") ∈ ([("expo-asset")] : List String) ∨ ("expo-router") = ("expo-router") ∨
        ("expo-router") = ("expo-camera") :=
  explicit_list_union [] ⟨true, [("repo")]⟩
    [⟨("expo"), ⟨true, [("repo"), ("packages"), ("expo")]⟩, [("expo-asset")]⟩] []
    ⟨("expo"), ⟨true, [("repo"), ("packages"), ("expo")]⟩, [("expo-asset")]⟩
    [("expo-asset"), ("expo-router"), ("expo-camera")] rfl rfl ("expo-router")

/-- C7 counterexample: a catalog whose entry package itself declares an
excluded name; default-mode selection returns that name, because the exclusion
set is applied only in the `all` branch. -/
theorem default_mode_excluded_leak :
    getPackageByName
        [⟨("expo"), ⟨true, [("repo"), ("packages"), ("expo")]⟩, [("expo-module-template")]⟩]
        ("expo") =
      some ⟨("expo"), ⟨true, [("repo"), ("packages"), ("expo")]⟩, [("expo-module-template")]⟩ ∧
    getExtraPackagesAsync [] ⟨true, [("repo")]⟩
        [⟨("expo"), ⟨true, [("repo"), ("packages"), ("expo")]⟩, [("expo-module-template")]⟩] []
        ("default") =
      .ok [("expo-module-template")] ∧
    ("expo-module-template") ∈ EXCLUDED_PACKAGES :=
  ⟨rfl, rfl, by decide⟩

/-- C7 amended: every name returned by default-mode selection is a declared
transitive dependency of the entry package, and the result avoids the fixed
exclusion set whenever the entry package's declared dependencies do — the
exclusion filter itself is applied only in `all` mode. -/
theorem default_mode_deps_only (cwd : List String) (rootDir : Path) (catalog : List Package)
    (changedFiles : List Path) (e : Package) (l : List String)
    (he : getPackageByName catalog ("expo") = some e)
    (hex : ∀ d ∈ e.dependencies, d ∉ EXCLUDED_PACKAGES)
    (hl : getExtraPackagesAsync cwd rootDir catalog changedFiles ("default") = .ok l) :
    (∀ p ∈ l, p ∈ e.dependencies) ∧ ∀ p ∈ l, p ∉ EXCLUDED_PACKAGES := by
  rw [getExtraPackagesAsync_default cwd rootDir catalog changedFiles e he] at hl
  have hl' : e.dependencies ++ [] = l := by injection hl
  subst hl'
  exact ⟨fun p hp => by simpa using hp, fun p hp => hex p (by simpa using hp)⟩

/-- Witness for the amended C7, instantiated at the returned name
`expo-asset`. -/
theorem default_mode_deps_only_witness :
    ("expo-asset") ∈ ([("expo-asset")] : List String) ∧
    ("expo-asset") ∉ EXCLUDED_PACKAGES :=
  ⟨(default_mode_deps_only [] ⟨true, [("repo")]⟩
      [⟨("expo"), ⟨true, [("repo"), ("packages"), ("expo")]⟩, [("expo-asset")]⟩] []
      ⟨("expo"), ⟨true, [("repo"), ("packages"), ("expo")]⟩, [("expo-asset")]⟩
      [("expo-asset")] rfl (by decide) rfl).1 ("expo-asset") (by decide),
   (default_mode_deps_only [] ⟨true, [("repo")]⟩
      [⟨("expo"), ⟨true, [("repo"), ("packages"), ("expo")]⟩, [("expo-asset")]⟩] []
      ⟨("expo"), ⟨true, [("repo"), ("packages"), ("expo")]⟩, [("expo-asset")]⟩
      [("expo-asset")] rfl (by decide) rfl).2 ("expo-asset") (by decide)⟩

/-- C1: for a catalog with unique package names, a package's name is in the
changed-mode result exactly when some changed file lies inside the package —
that is, when the file's path relative to the package's repository-relative
path is non-empty, does not begin with a parent-directory traversal marker,
and is not absolute. -/
theorem changed_mode_owns_iff (cwd : List String) (rootDir : Path)
    (allPackages : List Package) (changedFiles : List Path) (p : Package)
    (hp : p ∈ allPackages)
    (hnd : (allPackages.map (fun q => q.packageName)).Nodup) :
    p.packageName ∈ getChangedPackagesAsync cwd rootDir allPackages changedFiles ↔
      ∃ file ∈ changedFiles, fileInsidePkg cwd rootDir p file = true := by
  rw [mem_getChangedPackagesAsync]
  constructor
  · rintro ⟨f, hf, q, hq, hname, hc⟩
    have hqp : q = p := name_inj allPackages hnd q p hq hp hname
    exact ⟨f, hf, hqp ▸ hc⟩
  · rintro ⟨f, hf, hc⟩
    exact ⟨f, hf, p, hp, rfl, hc⟩

/-- Witness for C1 at a one-package catalog with one changed file inside the
package. -/
theorem changed_mode_owns_iff_witness :
    ("expo-camera") ∈ getChangedPackagesAsync [] ⟨true, [("repo")]⟩
        [⟨("expo-camera"), ⟨true, [("repo"), ("packages"), ("expo-camera")]⟩, []⟩]
        [⟨false, [("packages"), ("expo-camera"), ("ios"), ("Foo.m")]⟩] ↔
      ∃ file ∈ ([⟨false, [("packages"), ("expo-camera"), ("ios"), ("Foo.m")]⟩] : List Path),
        fileInsidePkg [] ⟨true, [("repo")]⟩
          ⟨("expo-camera"), ⟨true, [("repo"), ("packages"), ("expo-camera")]⟩, []⟩ file = true :=
  changed_mode_owns_iff [] ⟨true, [("repo")]⟩
    [⟨("expo-camera"), ⟨true, [("repo"), ("packages"), ("expo-camera")]⟩, []⟩]
    [⟨false, [("packages"), ("expo-camera"), ("ios"), ("Foo.m")]⟩]
    ⟨("expo-camera"), ⟨true, [("repo"), ("packages"), ("expo-camera")]⟩, []⟩
    (by decide) (by decide)

/-- C6 counterexample: one package owning two changed files makes its name
occur twice in the change-set result — the returned collection is not
deduplicated. -/
theorem changed_mode_duplicate_names :
    getChangedPackagesAsync [] ⟨true, [("repo")]⟩
        [⟨("a"), ⟨true, [("repo"), ("packages"), ("a")]⟩, []⟩]
        [⟨false, [("packages"), ("a"), ("x.ts")]⟩, ⟨false, [("packages"), ("a"), ("y.ts")]⟩] =
      [("a"), ("a")] ∧
    ¬ ([("a"), ("a")] : List String).Nodup :=
  ⟨by decide, by decide⟩

/-- C6 amended: in a catalog with unique package names, a package's name
occurs in the change-set result once per changed file the package owns, so the
name repeats whenever the package owns several changed files; deduplication
happens only downstream. -/
theorem changed_mode_count (cwd : List String) (rootDir : Path) (allPackages : List Package)
    (changedFiles : List Path) (p : Package) (hp : p ∈ allPackages)
    (hnd : (allPackages.map (fun q => q.packageName)).Nodup) :
    (getChangedPackagesAsync cwd rootDir allPackages changedFiles).count p.packageName =
      (changedFiles.filter (fun f => fileInsidePkg cwd rootDir p f)).length := by
  induction changedFiles with
  | nil => rfl
  | cons f fs ih =>
    unfold getChangedPackagesAsync
    rw [List.flatMap_cons, List.count_append]
    have hinner := count_inner cwd rootDir f p allPackages hnd hp
    rw [hinner]
    show _ + (getChangedPackagesAsync cwd rootDir allPackages fs).count p.packageName = _
    rw [ih, List.filter_cons]
    by_cases hc : fileInsidePkg cwd rootDir p f = true
    · rw [if_pos hc, if_pos hc, List.length_cons]
      omega
    · rw [if_neg hc, if_neg hc]
      omega

/-- Witness for the amended C6: the package owning both changed files is
counted twice, matching the number of owned changed files. -/
theorem changed_mode_count_witness :
    (getChangedPackagesAsync [] ⟨true, [("repo")]⟩
        [⟨("a"), ⟨true, [("repo"), ("packages"), ("a")]⟩, []⟩]
        [⟨false, [("packages"), ("a"), ("x.ts")]⟩,
         ⟨false, [("packages"), ("a"), ("y.ts")]⟩]).count ("a") =
      (([⟨false, [("packages"), ("a"), ("x.ts")]⟩,
         ⟨false, [("packages"), ("a"), ("y.ts")]⟩] : List Path).filter
        (fun f => fileInsidePkg [] ⟨true, [("repo")]⟩
          ⟨("a"), ⟨true, [("repo"), ("packages"), ("a")]⟩, []⟩ f)).length :=
  changed_mode_count [] ⟨true, [("repo")]⟩
    [⟨("a"), ⟨true, [("repo"), ("packages"), ("a")]⟩, []⟩]
    [⟨false, [("packages"), ("a"), ("x.ts")]⟩, ⟨false, [("packages"), ("a"), ("y.ts")]⟩]
    ⟨("a"), ⟨true, [("repo"), ("packages"), ("a")]⟩, []⟩
    (by decide) (by decide)

/-- C2: for a catalog with unique package names, after the manifest rewrite
every name in the intersection of (the manifest's declared dependency names
union the selected extra names) with the catalog's package names has
`dependencies[name]` equal to the package's path relative to the project
directory and `resolutions[name]` equal to `dependencies[name]`, with
`resolutions` created if absent; every manifest entry whose name is not in
that intersection is left unchanged, and no key absent from both the manifest
and the selection is added. -/
theorem manifest_rewrite_correct (cwd : List String) (projectDir : Path)
    (allPackages : List Package) (extraInstallPackages : List String) (pj : PackageJson)
    (hnd : (allPackages.map (fun q => q.packageName)).Nodup) :
    ((prebuildRewrite cwd projectDir allPackages extraInstallPackages pj).resolutions.isSome =
      true) ∧
    (∀ n p, p ∈ allPackages → p.packageName = n →
      (n ∈ pj.dependencies.map (fun q => q.1) ∨ n ∈ extraInstallPackages) →
      lookupJs (prebuildRewrite cwd projectDir allPackages extraInstallPackages pj).dependencies
          n = some (relStr cwd projectDir p) ∧
      lookupJs ((prebuildRewrite cwd projectDir allPackages extraInstallPackages
          pj).resolutions.getD []) n = some (relStr cwd projectDir p)) ∧
    (∀ n, ((∀ p ∈ allPackages, p.packageName ≠ n) ∨
        (n ∉ pj.dependencies.map (fun q => q.1) ∧ n ∉ extraInstallPackages)) →
      lookupJs (prebuildRewrite cwd projectDir allPackages extraInstallPackages pj).dependencies
          n = lookupJs pj.dependencies n ∧
      lookupJs ((prebuildRewrite cwd projectDir allPackages extraInstallPackages
          pj).resolutions.getD []) n = lookupJs (pj.resolutions.getD []) n) ∧
    (∀ n, lookupJs pj.dependencies n = none → n ∉ extraInstallPackages →
      lookupJs (prebuildRewrite cwd projectDir allPackages extraInstallPackages pj).dependencies
          n = none) := by
  obtain ⟨r2, hr2, hlookr⟩ := foldl_rewriteStep_res cwd projectDir
    (installPackagesOf allPackages (pj.dependencies.map (fun q => q.1)) extraInstallPackages)
    ⟨pj.dependencies, some (pj.resolutions.getD [])⟩ (pj.resolutions.getD []) rfl
  have hlookd := fun n => foldl_rewriteStep_deps cwd projectDir
    (installPackagesOf allPackages (pj.dependencies.map (fun q => q.1)) extraInstallPackages)
    ⟨pj.dependencies, some (pj.resolutions.getD [])⟩ n
  have hpre : prebuildRewrite cwd projectDir allPackages extraInstallPackages pj =
      (installPackagesOf allPackages (pj.dependencies.map (fun q => q.1))
        extraInstallPackages).foldl (rewriteStep cwd projectDir)
        ⟨pj.dependencies, some (pj.resolutions.getD [])⟩ := rfl
  refine ⟨?_, ?_, ?_, ?_⟩
  · rw [hpre, hr2]
    rfl
  · intro n p hp hpn hmem
    constructor
    · rw [hpre, hlookd n, installFind_some allPackages
        (pj.dependencies.map (fun q => q.1)) extraInstallPackages hnd n p hp hpn hmem]
    · rw [hpre, hr2]
      show lookupJs r2 n = _
      rw [hlookr n, installFind_some allPackages
        (pj.dependencies.map (fun q => q.1)) extraInstallPackages hnd n p hp hpn hmem]
  · intro n hn
    constructor
    · rw [hpre, hlookd n, installFind_none allPackages
        (pj.dependencies.map (fun q => q.1)) extraInstallPackages n hn]
    · rw [hpre, hr2]
      show lookupJs r2 n = _
      rw [hlookr n, installFind_none allPackages
        (pj.dependencies.map (fun q => q.1)) extraInstallPackages n hn]
  · intro n hnone hne
    have hnk : n ∉ pj.dependencies.map (fun q => q.1) := (lookupJs_eq_none _ n).mp hnone
    rw [hpre, hlookd n, installFind_none allPackages
      (pj.dependencies.map (fun q => q.1)) extraInstallPackages n (Or.inr ⟨hnk, hne⟩)]
    exact hnone

/-- Witness for C2 at a concrete catalog and manifest: the catalog package
named in the manifest is rewritten to its relative path in both
`dependencies` and `resolutions`, the non-catalog entry `react` is untouched,
and the name `lodash`, absent from both the manifest and the selection, is
not added. -/
theorem manifest_rewrite_correct_witness :
    lookupJs (prebuildRewrite [] ⟨true, [("work"), ("app")]⟩
        [⟨("expo"), ⟨true, [("repo"), ("packages"), ("expo")]⟩, [("expo-asset")]⟩]
        [("left-pad")]
        ⟨[(("expo"), ("~49.0.0")), (("react"), ("18.2.0"))], none⟩).dependencies ("expo") =
      some ("../../repo/packages/expo") ∧
    lookupJs ((prebuildRewrite [] ⟨true, [("work"), ("app")]⟩
        [⟨("expo"), ⟨true, [("repo"), ("packages"), ("expo")]⟩, [("expo-asset")]⟩]
        [("left-pad")]
        ⟨[(("expo"), ("~49.0.0")), (("react"), ("18.2.0"))], none⟩).resolutions.getD [])
        ("expo") =
      some ("../../repo/packages/expo") ∧
    lookupJs (prebuildRewrite [] ⟨true, [("work"), ("app")]⟩
        [⟨("expo"), ⟨true, [("repo"), ("packages"), ("expo")]⟩, [("expo-asset")]⟩]
        [("left-pad")]
        ⟨[(("expo"), ("~49.0.0")), (("react"), ("18.2.0"))], none⟩).dependencies ("react") =
      some ("18.2.0") ∧
    lookupJs (prebuildRewrite [] ⟨true, [("work"), ("app")]⟩
        [⟨("expo"), ⟨true, [("repo"), ("packages"), ("expo")]⟩, [("expo-asset")]⟩]
        [("left-pad")]
        ⟨[(("expo"), ("~49.0.0")), (("react"), ("18.2.0"))], none⟩).dependencies ("lodash") =
      none := by
  have h := manifest_rewrite_correct [] ⟨true, [("work"), ("app")]⟩
    [⟨("expo"), ⟨true, [("repo"), ("packages"), ("expo")]⟩, [("expo-asset")]⟩]
    [("left-pad")]
    ⟨[(("expo"), ("~49.0.0")), (("react"), ("18.2.0"))], none⟩ (by decide)
  refine ⟨?_, ?_, ?_, ?_⟩
  · have h1 := (h.2.1 ("expo")
      ⟨("expo"), ⟨true, [("repo"), ("packages"), ("expo")]⟩, [("expo-asset")]⟩
      (by decide) rfl (Or.inl (by decide))).1
    rw [h1]
    rfl
  · have h1 := (h.2.1 ("expo")
      ⟨("expo"), ⟨true, [("repo"), ("packages"), ("expo")]⟩, [("expo-asset")]⟩
      (by decide) rfl (Or.inl (by decide))).2
    rw [h1]
    rfl
  · have h1 := (h.2.2.1 ("react") (Or.inl (by decide))).1
    rw [h1]
    rfl
  · exact h.2.2.2 ("lodash") rfl (by decide)

end CreateBareProject
